import Mathlib

/-!
Shallow embedding of the blockchain core of `0xAliya/blockchain`
(src/unnamed/part_000, a TypeScript file).  The embedded parts are:
the SHA-256 hashing primitive (`calculateSHA256Hash`), the ledger data
model (`Transaction`, `Block`), and the `BlockChain` class state and
methods (`newBlock`, `newTransaction`, `proofOfWork`, `validProof`,
`hash`, `registerNode`, `validChain`, `resolveConflicts`).

Modelling conventions:
- JS numbers that are always non-negative integers in the program
  (block index, timestamp, proof) become `Nat`; the transaction amount
  and the peer-reported chain length (arbitrary JSON numbers compared
  with `>`) become `Int`.
- `Date.now()` is an environment input: `newBlock` takes the timestamp
  as an argument.
- Exceptions (`hash.update(undefined)` on an empty chain,
  `this.lastBlock.index` on an empty chain, `new URL` on a malformed
  address) are modelled with `Option`/`Except`.
- The JS `Set` of nodes is modelled as an insertion-ordered duplicate-
  free list.
- `fetch` outcomes inside `resolveConflicts` are an input: a list of
  `Option ChainResponse`, `none` standing for a non-2xx response that
  the `response.ok` test skips.
-/

/-- Mask a natural number to 32 bits, the word size of SHA-256. -/
def w32 (n : Nat) : Nat := n % 4294967296

/-- Right rotation of a 32-bit word. -/
def rotr32 (x n : Nat) : Nat := w32 ((x >>> n) ||| (x <<< (32 - n)))

/-- SHA-256 small sigma 0. -/
def ssig0 (x : Nat) : Nat := (rotr32 x 7) ^^^ (rotr32 x 18) ^^^ (x >>> 3)

/-- SHA-256 small sigma 1. -/
def ssig1 (x : Nat) : Nat := (rotr32 x 17) ^^^ (rotr32 x 19) ^^^ (x >>> 10)

/-- SHA-256 big Sigma 0. -/
def bsig0 (x : Nat) : Nat := (rotr32 x 2) ^^^ (rotr32 x 13) ^^^ (rotr32 x 22)

/-- SHA-256 big Sigma 1. -/
def bsig1 (x : Nat) : Nat := (rotr32 x 6) ^^^ (rotr32 x 11) ^^^ (rotr32 x 25)

/-- SHA-256 choice function. -/
def chFn (x y z : Nat) : Nat := (x &&& y) ^^^ ((w32 (2 ^ 32 - 1 - x)) &&& z)

/-- SHA-256 majority function. -/
def majFn (x y z : Nat) : Nat := (x &&& y) ^^^ (x &&& z) ^^^ (y &&& z)

/-- The 64 SHA-256 round constants of FIPS 180-4, written in decimal. -/
def sha256K : List Nat :=
  [1116352408, 1899447441, 3049323471, 3921009573, 961987163,
   1508970993, 2453635748, 2870763221, 3624381080, 310598401,
   607225278, 1426881987, 1925078388, 2162078206, 2614888103,
   3248222580, 3835390401, 4022224774, 264347078, 604807628,
   770255983, 1249150122, 1555081692, 1996064986, 2554220882,
   2821834349, 2952996808, 3210313671, 3336571891, 3584528711,
   113926993, 338241895, 666307205, 773529912, 1294757372,
   1396182291, 1695183700, 1986661051, 2177026350, 2456956037,
   2730485921, 2820302411, 3259730800, 3345764771, 3516065817,
   3600352804, 4094571909, 275423344, 430227734, 506948616,
   659060556, 883997877, 958139571, 1322822218, 1537002063,
   1747873779, 1955562222, 2024104815, 2227730452, 2361852424,
   2428436474, 2756734187, 3204031479, 3329325298]

/-- The eight-word SHA-256 initial hash value, written in decimal. -/
def sha256H0 : List Nat :=
  [1779033703, 3144134277, 1013904242, 2773480762, 1359893119,
   2600822924, 528734635, 1541459225]

/-- Big-endian byte decomposition of a natural number into `k` bytes. -/
def natToBytesBE (k n : Nat) : List Nat :=
  match k with
  | 0 => []
  | j + 1 => natToBytesBE j (n >>> 8) ++ [n &&& 0xff]

/-- SHA-256 padding: append `0x80`, zero bytes to 56 mod 64, then the
bit length as 8 big-endian bytes. -/
def sha256pad (msg : List Nat) : List Nat :=
  let len := msg.length
  let zeroCount := (55 + 64 - len % 64) % 64
  msg ++ [0x80] ++ List.replicate zeroCount 0 ++ natToBytesBE 8 (len * 8)

/-- Group a byte list into big-endian 32-bit words (four bytes each). -/
def bytesToWords : List Nat → List Nat
  | a :: b :: c :: d :: rest =>
      (a <<< 24 ||| b <<< 16 ||| c <<< 8 ||| d) :: bytesToWords rest
  | _ => []

/-- Group a word list into blocks of sixteen words. -/
def wordsToBlocks : List Nat → List (List Nat)
  | w0 :: w1 :: w2 :: w3 :: w4 :: w5 :: w6 :: w7 ::
    w8 :: w9 :: w10 :: w11 :: w12 :: w13 :: w14 :: w15 :: rest =>
      [w0, w1, w2, w3, w4, w5, w6, w7, w8, w9, w10, w11, w12, w13, w14, w15] ::
        wordsToBlocks rest
  | _ => []

/-- Extend a 16-word block by `fuel` further schedule words. -/
def extendSchedule (ws : List Nat) : Nat → List Nat
  | 0 => ws
  | n + 1 =>
      let w := extendSchedule ws n
      let len := w.length
      w ++ [w32 (ssig1 (w.getD (len - 2) 0) + w.getD (len - 7) 0 +
                 ssig0 (w.getD (len - 15) 0) + w.getD (len - 16) 0)]

/-- Working state of the SHA-256 compression function. -/
structure Sha256State where
  a : Nat
  b : Nat
  c : Nat
  d : Nat
  e : Nat
  f : Nat
  g : Nat
  h : Nat

/-- One round of the SHA-256 compression function. -/
def sha256Round (s : Sha256State) (kw : Nat × Nat) : Sha256State :=
  let t1 := w32 (s.h + bsig1 s.e + chFn s.e s.f s.g + kw.1 + kw.2)
  let t2 := w32 (bsig0 s.a + majFn s.a s.b s.c)
  ⟨w32 (t1 + t2), s.a, s.b, s.c, w32 (s.d + t1), s.e, s.f, s.g⟩

/-- Compress one 16-word block into the running eight-word digest. -/
def sha256Compress (hs : List Nat) (block : List Nat) : List Nat :=
  let sched := extendSchedule block 48
  let init : Sha256State :=
    ⟨hs.getD 0 0, hs.getD 1 0, hs.getD 2 0, hs.getD 3 0,
     hs.getD 4 0, hs.getD 5 0, hs.getD 6 0, hs.getD 7 0⟩
  let s := (sha256K.zip sched).foldl (fun st kw => sha256Round st ⟨kw.2, kw.1⟩) init
  [w32 (hs.getD 0 0 + s.a), w32 (hs.getD 1 0 + s.b), w32 (hs.getD 2 0 + s.c),
   w32 (hs.getD 3 0 + s.d), w32 (hs.getD 4 0 + s.e), w32 (hs.getD 5 0 + s.f),
   w32 (hs.getD 6 0 + s.g), w32 (hs.getD 7 0 + s.h)]

/-- SHA-256 digest of a byte list, as eight 32-bit words. -/
def sha256Words (msg : List Nat) : List Nat :=
  (wordsToBlocks (bytesToWords (sha256pad msg))).foldl sha256Compress sha256H0

/-- Hexadecimal digit character for a nibble. -/
def hexChar (n : Nat) : Char :=
  "0123456789abcdef".toList.getD n '0'

/-- Lowercase hexadecimal rendering of one 32-bit word (eight digits). -/
def wordToHex (n : Nat) : List Char :=
  [hexChar ((n >>> 28) &&& 15), hexChar ((n >>> 24) &&& 15),
   hexChar ((n >>> 20) &&& 15), hexChar ((n >>> 16) &&& 15),
   hexChar ((n >>> 12) &&& 15), hexChar ((n >>> 8) &&& 15),
   hexChar ((n >>> 4) &&& 15), hexChar (n &&& 15)]

/-- Hex digest string of a byte list under SHA-256. -/
def sha256hex (msg : List Nat) : String :=
  ⟨(sha256Words msg).foldr (fun wd acc => wordToHex wd ++ acc) []⟩

/-- UTF-8 encoding of one character as a byte list. -/
def utf8Bytes (c : Char) : List Nat :=
  let n := c.toNat
  if n < 0x80 then [n]
  else if n < 0x800 then [0xc0 ||| (n >>> 6), 0x80 ||| (n &&& 0x3f)]
  else if n < 0x10000 then
    [0xe0 ||| (n >>> 12), 0x80 ||| ((n >>> 6) &&& 0x3f), 0x80 ||| (n &&& 0x3f)]
  else
    [0xf0 ||| (n >>> 18), 0x80 ||| ((n >>> 12) &&& 0x3f),
     0x80 ||| ((n >>> 6) &&& 0x3f), 0x80 ||| (n &&& 0x3f)]

/-- UTF-8 byte sequence of a string. -/
def strBytes (s : String) : List Nat :=
  (s.toList.map utf8Bytes).flatten

/-- Embeds `calculateSHA256Hash` from the source: the SHA-256 hex digest
of the UTF-8 encoding of a string (`createHash('sha256')`, `update`,
`digest('hex')`). -/
def calculateSHA256Hash (data : String) : String :=
  sha256hex (strBytes data)

/-- Embeds the `Transaction` interface (the JS `amount: number` is an
integer in every use the program makes of it). -/
structure Transaction where
  sender : String
  recipient : String
  amount : Int
deriving DecidableEq

/-- Embeds the `Block` interface. -/
structure Block where
  index : Nat
  timestamp : Nat
  transactions : List Transaction
  proof : Nat
  previousHash : String
deriving DecidableEq

/-- JSON escape of a single character, following `JSON.stringify`. -/
def jsonEscapeChar (c : Char) : List Char :=
  if c = '"' then ['\\', '"']
  else if c = '\\' then ['\\', '\\']
  else if c = '\n' then ['\\', 'n']
  else if c = '\t' then ['\\', 't']
  else if c = '\r' then ['\\', 'r']
  else if c.toNat = 8 then ['\\', 'b']
  else if c.toNat = 12 then ['\\', 'f']
  else if c.toNat < 32 then
    ['\\', 'u', '0', '0', hexChar ((c.toNat >>> 4) &&& 15), hexChar (c.toNat &&& 15)]
  else [c]

/-- JSON rendering of a string literal, following `JSON.stringify`. -/
def jsonStr (s : String) : String :=
  "\"" ++ String.mk (s.toList.map jsonEscapeChar).flatten ++ "\""

/-- JSON rendering of a `Transaction`, following `JSON.stringify` field
insertion order: sender, recipient, amount. -/
def transactionJson (t : Transaction) : String :=
  "\x7b\"sender\":" ++ jsonStr t.sender ++
  ",\"recipient\":" ++ jsonStr t.recipient ++
  ",\"amount\":" ++ toString t.amount ++ "\x7d"

/-- JSON rendering of a `Block`, following `JSON.stringify` field
insertion order: index, timestamp, transactions, proof, previousHash. -/
def blockJson (b : Block) : String :=
  "\x7b\"index\":" ++ toString b.index ++
  ",\"timestamp\":" ++ toString b.timestamp ++
  ",\"transactions\":[" ++ String.intercalate "," (b.transactions.map transactionJson) ++
  "],\"proof\":" ++ toString b.proof ++
  ",\"previousHash\":" ++ jsonStr b.previousHash ++ "\x7d"

namespace BlockChain

/-- Embeds the static `BlockChain.hash`: SHA-256 of `JSON.stringify(block)`. -/
def hash (block : Block) : String :=
  calculateSHA256Hash (blockJson block)

/-- Embeds the static `BlockChain.validProof`: the guess string is the
decimal concatenation of `lastProof` and `proof`, and its SHA-256 hex
digest must start with four zero characters (`slice(0, 4) === '0000'`). -/
def validProof (lastProof proof : Nat) : Bool :=
  let guess := toString lastProof ++ toString proof
  let guessHash := calculateSHA256Hash guess
  guessHash.take 4 == "0000"

end BlockChain

/-- Embeds the mutable state of the `BlockChain` class: the chain, the
pending transaction pool, and the node set (as an insertion-ordered
duplicate-free list of `host:port` strings). -/
structure BCState where
  chain : List Block
  currentTransactions : List Transaction
  nodes : List String
deriving DecidableEq

namespace BlockChain

/-- Embeds the `lastBlock` getter: `this.chain[this.chain.length - 1]`,
which is `undefined` (here `none`) on an empty chain. -/
def lastBlock (s : BCState) : Option Block :=
  s.chain.getLast?

/-- Embeds `newBlock(proof, previousHash?)`.  `Date.now()` is the
`timestamp` argument.  The JS default `previousHash ||
BlockChain.hash(this.chain[this.chain.length - 1])` fires on every
falsy argument, i.e. on omission (`none`) and on the empty string; on
an empty chain that default hashes `undefined`, which makes
`hash.update` throw — modelled by returning `none`.  On success it
builds the block with `index = chain.length + 1` and the whole pending
pool as transactions, clears the pool, pushes the block and returns it. -/
def newBlock (s : BCState) (proof : Nat) (previousHash : Option String)
    (timestamp : Nat) : Option (BCState × Block) :=
  let ph : Option String :=
    match previousHash with
    | some p => if p = "" then (lastBlock s).map hash else some p
    | none => (lastBlock s).map hash
  match ph with
  | none => none
  | some ph =>
      let block : Block := ⟨s.chain.length + 1, timestamp, s.currentTransactions, proof, ph⟩
      some (⟨s.chain ++ [block], [], s.nodes⟩, block)

/-- Embeds `newTransaction(sender, recipient, amount)`: pushes the
transaction onto the pending pool, then returns `this.lastBlock.index
+ 1`.  On an empty chain that read throws (`undefined.index`) after
the push already happened, so the returned index is an `Option` while
the mutated state is always produced. -/
def newTransaction (s : BCState) (sender recipient : String) (amount : Int) :
    BCState × Option Nat :=
  let s2 : BCState := ⟨s.chain, s.currentTransactions ++ [⟨sender, recipient, amount⟩], s.nodes⟩
  (s2, (lastBlock s2).map (fun b => b.index + 1))

/-- Embeds `proofOfWork(lastProof)`: the JS `while` loop scans proofs
0, 1, 2, … and stops at the first one accepted by `validProof`; that
first hit is exactly `Nat.find`, available under the hypothesis that
some solution exists (the loop never exits otherwise). -/
def proofOfWork (lastProof : Nat) (h : ∃ p, validProof lastProof p = true) : Nat :=
  Nat.find h

/-- Embeds `validChain`'s `while` loop: `lastBlock` is the block behind
the cursor, and each step checks the hash link and the proof link
before advancing. -/
def validChainAux : Block → List Block → Bool
  | _, [] => true
  | lastB, b :: rest =>
      if b.previousHash = hash lastB then
        if validProof lastB.proof b.proof then validChainAux b rest else false
      else false

/-- Embeds `validChain(chain)`: starts the walk at `chain[0]` with the
cursor at index 1; an empty or one-element chain never enters the loop
and yields `true`. -/
def validChain : List Block → Bool
  | [] => true
  | b :: rest => validChainAux b rest

end BlockChain

/-- Embeds the JSON body a peer returns for `GET /chain`: a reported
`length` field (an arbitrary number, not checked against the array)
and the chain array itself. -/
structure ChainResponse where
  length : Int
  chain : List Block
deriving DecidableEq

namespace BlockChain

/-- Embeds the peer loop of `resolveConflicts`: each list entry is one
peer's fetch outcome (`none` when `response.ok` is false), folded over
`maxLength` (initially the local chain length) and the best candidate
`newChain`.  A candidate is adopted when its reported `length` exceeds
`maxLength` and `validChain` accepts its chain array. -/
def resolveLoop : List (Option ChainResponse) → Int → Option (List Block) → Option (List Block)
  | [], _, newChain => newChain
  | r :: rest, maxLength, newChain =>
      match r with
      | none => resolveLoop rest maxLength newChain
      | some resp =>
          if maxLength < resp.length ∧ validChain resp.chain = true then
            resolveLoop rest resp.length (some resp.chain)
          else
            resolveLoop rest maxLength newChain

/-- Embeds `resolveConflicts()`: after the peer loop, a non-null
`newChain` replaces the local chain wholesale and the call returns
`true`; otherwise the state is untouched and it returns `false`. -/
def resolveConflicts (s : BCState) (responses : List (Option ChainResponse)) :
    BCState × Bool :=
  match resolveLoop responses (s.chain.length : Int) none with
  | some c => (⟨c, s.currentTransactions, s.nodes⟩, true)
  | none => (s, false)

end BlockChain

/-- The state of a `BlockChain` object before its constructor body runs. -/
def emptyBC : BCState := ⟨[], [], []⟩

/-- Embeds the `BlockChain` constructor, which runs
`this.newBlock(100, '1')` on the empty state; the genesis timestamp is
the `ts` argument.  The fallback branch is dead code: with the truthy
previous hash `'1'` the inner `newBlock` always succeeds (see
`initState_eq_newBlock`). -/
def initState (ts : Nat) : BCState :=
  match BlockChain.newBlock emptyBC 100 (some "1") ts with
  | some (s, _) => s
  | none => emptyBC

/-- The genesis block as the constructor builds it. -/
def genesisBlock (ts : Nat) : Block :=
  ⟨1, ts, [], 100, "1"⟩

/-- Split a character list at the first occurrence of `sep`, dropping
the separator; `none` when `sep` does not occur. -/
def splitFirst (sep : Char) : List Char → Option (List Char × List Char)
  | [] => none
  | c :: rest =>
      if c = sep then some ([], rest)
      else (splitFirst sep rest).map (fun p => (c :: p.1, p.2))

/-- Split a character list at the last occurrence of `sep`, dropping
the separator; `none` when `sep` does not occur. -/
def splitLast (sep : Char) (l : List Char) : Option (List Char × List Char) :=
  (splitFirst sep l.reverse).map (fun p => (p.2.reverse, p.1.reverse))

/-- Hostname and port of a parsed URL, the two properties `registerNode`
reads. -/
structure URLParts where
  hostname : String
  port : String
deriving DecidableEq

/-- Modelled from the spec: the platform `new URL` constructor called by
`registerNode` ("parses the address as a URL, extracts host and port",
failing "if the address cannot be parsed as a URL").  The model parses
`scheme://host[:port][/...]` addresses: a non-empty alphabetic scheme
before the first colon, a `//` marker, then an authority running up to
the first `/`, `?` or `#`, split at its last colon into a non-empty
hostname and an all-digit port (empty when no colon is present, as in
the platform's `url.port` for an unspecified port).  Anything else is
a parse failure (`none`, the platform's thrown `TypeError`). -/
def parseURL (address : String) : Option URLParts :=
  match splitFirst ':' address.toList with
  | none => none
  | some (scheme, rest) =>
      if scheme = [] ∨ ¬ scheme.all Char.isAlpha then none
      else
        match rest with
        | '/' :: '/' :: rest2 =>
            let authority := rest2.takeWhile (fun c => c ≠ '/' ∧ c ≠ '?' ∧ c ≠ '#')
            match splitLast ':' authority with
            | some (hostCs, portCs) =>
                if hostCs = [] ∨ ¬ portCs.all Char.isDigit then none
                else some ⟨String.mk hostCs, String.mk portCs⟩
            | none =>
                if authority = [] then none else some ⟨String.mk authority, ""⟩
        | _ => none

/-- Insertion into the JS `Set` model: append when absent, no change
when already present. -/
def insertNode (x : String) (l : List String) : List String :=
  if x ∈ l then l else l ++ [x]

namespace BlockChain

/-- Embeds `registerNode(address)`: `new URL(address)` throws on a
malformed address (modelled as `Except.error`, surfaced to the caller
since the method has no try/catch); on success the normalized
`hostname + ':' + port` string is added to the node set. -/
def registerNode (s : BCState) (address : String) : Except String BCState :=
  match parseURL address with
  | none => Except.error "Invalid URL"
  | some u =>
      Except.ok ⟨s.chain, s.currentTransactions,
        insertNode (u.hostname ++ ":" ++ u.port) s.nodes⟩

end BlockChain

/-- Spec-side predicate: the adjacent-pair requirement the spec states
for `validChain` — the current block's `previousHash` is the hash of
the previous block, and the current proof passes `validProof` against
the previous proof. -/
def chainLink (prev curr : Block) : Prop :=
  curr.previousHash = BlockChain.hash prev ∧
  BlockChain.validProof prev.proof curr.proof = true

instance (prev curr : Block) : Decidable (chainLink prev curr) := by
  unfold chainLink
  infer_instance

/-- Spec-side predicate: the chain shape the spec's genesis invariant
demands — non-empty with a first block of index 1. -/
def genesisHead : List Block → Bool
  | [] => false
  | b :: _ => b.index == 1

/-- The honest-peer wire contract of the spec: a successful `/chain`
response reports a `length` equal to the actual length of the chain
array it carries. -/
def honestResponses (responses : List (Option ChainResponse)) : Prop :=
  ∀ r ∈ responses, ∀ resp, r = some resp → resp.length = (resp.chain.length : Int)

theorem initState_eq_newBlock (ts : Nat) :
    BlockChain.newBlock emptyBC 100 (some "1") ts =
      some (initState ts, genesisBlock ts) := rfl

theorem initState_chain (ts : Nat) : (initState ts).chain = [genesisBlock ts] := rfl

theorem validChainAux_iff_chain (a : Block) (l : List Block) :
    BlockChain.validChainAux a l = true ↔ List.Chain chainLink a l := by
  induction l generalizing a with
  | nil => simp [BlockChain.validChainAux]
  | cons b rest ih =>
      simp only [BlockChain.validChainAux, List.chain_cons, chainLink]
      by_cases h1 : b.previousHash = BlockChain.hash a
      · by_cases h2 : BlockChain.validProof a.proof b.proof = true
        · simp [h1, h2, ih]
        · simp [h1, h2]
      · simp [h1]

theorem validChain_iff_chain (c : List Block) :
    BlockChain.validChain c = true ↔ List.Chain' chainLink c := by
  cases c with
  | nil => simp [BlockChain.validChain, List.Chain']
  | cons b rest => exact validChainAux_iff_chain b rest

/-- C4: `validChain` accepts a candidate chain exactly when every
adjacent pair `(prev, curr)` satisfies both the hash link
`curr.previousHash = hash prev` and the proof link
`validProof prev.proof curr.proof`; an empty or single-block candidate
has no adjacent pair, so it passes, and any failing pair forces the
result `false` whatever the later pairs look like. -/
theorem validChain_iff_adjacent (c : List Block) :
    BlockChain.validChain c = true ↔
      ∀ (i : Nat) (h : i + 1 < c.length),
        (c.get ⟨i + 1, h⟩).previousHash
            = BlockChain.hash (c.get ⟨i, by omega⟩) ∧
        BlockChain.validProof (c.get ⟨i, by omega⟩).proof
            (c.get ⟨i + 1, h⟩).proof = true := by
  rw [validChain_iff_chain, List.chain'_iff_get]
  constructor
  · intro h i hi
    exact h i (by omega)
  · intro h i hi
    exact h i (by omega)

theorem validChain_iff_adjacent_witness :
    BlockChain.validChain [genesisBlock 0] = true := by
  refine (validChain_iff_adjacent [genesisBlock 0]).mpr ?_
  intro i hi
  simp at hi

theorem validProof_unfold (a b : Nat) :
    BlockChain.validProof a b
      = ((calculateSHA256Hash (toString a ++ toString b)).take 4 == "0000") := rfl

theorem validProof_iff (a b : Nat) :
    BlockChain.validProof a b = true ↔
      (calculateSHA256Hash (toString a ++ toString b)).take 4 = "0000" := by
  rw [validProof_unfold]
  exact beq_iff_eq ..

/-- C3: under the hypothesis that a solution exists for `lastProof`,
`proofOfWork lastProof` returns the least natural number whose decimal
concatenation with `lastProof` has a SHA-256 hex digest starting with
`"0000"`, and that return value passes `validProof`. -/
theorem proofOfWork_spec (lastProof : Nat)
    (h : ∃ p, BlockChain.validProof lastProof p = true) :
    (calculateSHA256Hash
        (toString lastProof ++ toString (BlockChain.proofOfWork lastProof h))).take 4
        = "0000" ∧
    (∀ q, q < BlockChain.proofOfWork lastProof h →
        (calculateSHA256Hash (toString lastProof ++ toString q)).take 4 ≠ "0000") ∧
    BlockChain.validProof lastProof (BlockChain.proofOfWork lastProof h) = true := by
  have hspec : BlockChain.validProof lastProof (Nat.find h) = true := Nat.find_spec h
  refine ⟨?_, ?_, hspec⟩
  · exact (validProof_iff lastProof (Nat.find h)).mp hspec
  · intro q hq hcontra
    exact Nat.find_min h hq ((validProof_iff lastProof q).mpr hcontra)

set_option maxRecDepth 40000 in
theorem powSolutionExists100 : ∃ p, BlockChain.validProof 100 p = true :=
  ⟨35293, by decide⟩

theorem proofOfWork_spec_witness :
    BlockChain.validProof 100 (BlockChain.proofOfWork 100 powSolutionExists100) = true :=
  (proofOfWork_spec 100 powSolutionExists100).2.2

/-- C5: whenever `newBlock` returns (it throws only when a falsy
`previousHash` meets an empty chain), it appends exactly one block to
the chain, that block's index is the pre-call chain length plus 1, its
transaction list is exactly the pre-call pending pool, the pool is
empty afterwards, and the appended block is the returned one (its
proof and timestamp are the given ones, and the node set is untouched). -/
theorem newBlock_spec (s : BCState) (proof : Nat) (previousHash : Option String)
    (ts : Nat) (s2 : BCState) (b : Block)
    (h : BlockChain.newBlock s proof previousHash ts = some (s2, b)) :
    s2.chain = s.chain ++ [b] ∧
    b.index = s.chain.length + 1 ∧
    b.transactions = s.currentTransactions ∧
    s2.currentTransactions = [] ∧
    b.proof = proof ∧ b.timestamp = ts ∧ s2.nodes = s.nodes := by
  simp only [BlockChain.newBlock] at h
  split at h
  · exact absurd h (by simp)
  · simp only [Option.some.injEq, Prod.mk.injEq] at h
    obtain ⟨hs2, hb⟩ := h
    subst hs2
    subst hb
    exact ⟨rfl, rfl, rfl, rfl, rfl, rfl, rfl⟩

theorem newBlock_spec_witness :
    (⟨[genesisBlock 0, ⟨2, 1, [], 7, "ph"⟩], [], []⟩ : BCState).chain
        = (initState 0).chain ++ [⟨2, 1, [], 7, "ph"⟩] ∧
    (⟨2, 1, [], 7, "ph"⟩ : Block).index = (initState 0).chain.length + 1 ∧
    (⟨2, 1, [], 7, "ph"⟩ : Block).transactions = (initState 0).currentTransactions ∧
    (⟨[genesisBlock 0, ⟨2, 1, [], 7, "ph"⟩], [], []⟩ : BCState).currentTransactions = [] ∧
    (⟨2, 1, [], 7, "ph"⟩ : Block).proof = 7 ∧
    (⟨2, 1, [], 7, "ph"⟩ : Block).timestamp = 1 ∧
    (⟨[genesisBlock 0, ⟨2, 1, [], 7, "ph"⟩], [], []⟩ : BCState).nodes = (initState 0).nodes :=
  newBlock_spec (initState 0) 7 (some "ph") 1
    ⟨[genesisBlock 0, ⟨2, 1, [], 7, "ph"⟩], [], []⟩ ⟨2, 1, [], 7, "ph"⟩ rfl

/-- C6: on a non-empty chain, `newTransaction` appends exactly one
transaction with the given fields to the end of the pending pool,
leaves the chain (and node set) unchanged, and returns the last
block's index plus 1. -/
theorem newTransaction_spec (s : BCState) (sender recipient : String) (amount : Int)
    (h : s.chain ≠ []) :
    (BlockChain.newTransaction s sender recipient amount).1.currentTransactions
        = s.currentTransactions ++ [⟨sender, recipient, amount⟩] ∧
    (BlockChain.newTransaction s sender recipient amount).1.chain = s.chain ∧
    (BlockChain.newTransaction s sender recipient amount).1.nodes = s.nodes ∧
    (BlockChain.newTransaction s sender recipient amount).2
        = some ((s.chain.getLast h).index + 1) := by
  refine ⟨rfl, rfl, rfl, ?_⟩
  simp only [BlockChain.newTransaction, BlockChain.lastBlock]
  rw [List.getLast?_eq_getLast_of_ne_nil h]
  rfl

theorem newTransaction_spec_witness :
    (BlockChain.newTransaction (initState 0) "alice" "bob" 3).1.currentTransactions
        = [⟨"alice", "bob", 3⟩] ∧
    (BlockChain.newTransaction (initState 0) "alice" "bob" 3).1.chain
        = (initState 0).chain ∧
    (BlockChain.newTransaction (initState 0) "alice" "bob" 3).2 = some 2 := by
  have h := newTransaction_spec (initState 0) "alice" "bob" 3 (by simp [initState_chain])
  refine ⟨by simpa using h.1, h.2.1, ?_⟩
  rw [h.2.2.2]
  rfl

/-- C10: the `previousHash ||` default fires on the falsy empty string
exactly as on omission: on a non-empty chain, `newBlock` with
`previousHash = ""` stores the hash of the current last block, while
any non-empty string argument is stored verbatim. -/
theorem newBlock_falsy_default (s : BCState) (proof ts : Nat) (h : s.chain ≠ []) :
    (∃ s2 b, BlockChain.newBlock s proof (some "") ts = some (s2, b) ∧
        b.previousHash = BlockChain.hash (s.chain.getLast h)) ∧
    (∀ p : String, p ≠ "" →
      ∃ s2 b, BlockChain.newBlock s proof (some p) ts = some (s2, b) ∧
        b.previousHash = p) := by
  constructor
  · refine ⟨⟨s.chain ++ [⟨s.chain.length + 1, ts, s.currentTransactions, proof,
        BlockChain.hash (s.chain.getLast h)⟩], [], s.nodes⟩,
      ⟨s.chain.length + 1, ts, s.currentTransactions, proof,
        BlockChain.hash (s.chain.getLast h)⟩, ?_, rfl⟩
    simp only [BlockChain.newBlock, BlockChain.lastBlock, if_pos rfl]
    rw [List.getLast?_eq_getLast_of_ne_nil h]
    rfl
  · intro p hp
    refine ⟨⟨s.chain ++ [⟨s.chain.length + 1, ts, s.currentTransactions, proof, p⟩],
        [], s.nodes⟩,
      ⟨s.chain.length + 1, ts, s.currentTransactions, proof, p⟩, ?_, rfl⟩
    simp only [BlockChain.newBlock, BlockChain.lastBlock, if_neg hp]

theorem newBlock_falsy_default_witness :
    (∃ s2 b, BlockChain.newBlock (initState 0) 7 (some "") 1 = some (s2, b) ∧
        b.previousHash
          = BlockChain.hash ((initState 0).chain.getLast (by simp [initState_chain]))) ∧
    (∃ s2 b, BlockChain.newBlock (initState 0) 7 (some "xyz") 1 = some (s2, b) ∧
        b.previousHash = "xyz") := by
  have h := newBlock_falsy_default (initState 0) 7 1 (by simp [initState_chain])
  exact ⟨h.1, h.2 "xyz" (by decide)⟩

/-- C7: `registerNode` surfaces an error to the caller exactly when the
address fails URL parsing (the method has no try/catch around
`new URL`), no state is produced in that case, and on a successful
parse the normalized `hostname:port` string is inserted into the peer
set while chain and pending pool stay untouched. -/
theorem registerNode_spec (s : BCState) (address : String) :
    ((∃ e, BlockChain.registerNode s address = Except.error e) ↔
        parseURL address = none) ∧
    (∀ u, parseURL address = some u →
        BlockChain.registerNode s address =
          Except.ok ⟨s.chain, s.currentTransactions,
            insertNode (u.hostname ++ ":" ++ u.port) s.nodes⟩) := by
  constructor
  · constructor
    · intro ⟨e, he⟩
      by_contra hne
      obtain ⟨u, hu⟩ := Option.ne_none_iff_exists'.mp hne
      simp [BlockChain.registerNode, hu] at he
    · intro hnone
      exact ⟨"Invalid URL", by simp [BlockChain.registerNode, hnone]⟩
  · intro u hu
    simp [BlockChain.registerNode, hu]

theorem registerNode_spec_witness :
    (∃ e, BlockChain.registerNode (initState 0) "not a url" = Except.error e) ∧
    BlockChain.registerNode (initState 0) "http://10.0.0.5:5000" =
      Except.ok ⟨(initState 0).chain, (initState 0).currentTransactions,
        insertNode "10.0.0.5:5000" (initState 0).nodes⟩ :=
  ⟨(registerNode_spec (initState 0) "not a url").1.mpr (by decide),
   (registerNode_spec (initState 0) "http://10.0.0.5:5000").2
     ⟨"10.0.0.5", "5000"⟩ (by decide)⟩

/-- C8: starting from an empty peer set, registering
`http://10.0.0.5:5000` and `http://10.0.0.5:5000/` in either order
yields the same peer set of size 1 holding exactly `10.0.0.5:5000`:
URL normalization makes registration of equivalent addresses
idempotent. -/
theorem registerNode_normalizes_equivalent_addresses :
    (BlockChain.registerNode (initState 0) "http://10.0.0.5:5000").bind
        (fun s => BlockChain.registerNode s "http://10.0.0.5:5000/")
      = Except.ok ⟨(initState 0).chain, [], ["10.0.0.5:5000"]⟩ ∧
    (BlockChain.registerNode (initState 0) "http://10.0.0.5:5000/").bind
        (fun s => BlockChain.registerNode s "http://10.0.0.5:5000")
      = Except.ok ⟨(initState 0).chain, [], ["10.0.0.5:5000"]⟩ ∧
    (["10.0.0.5:5000"] : List String).length = 1 :=
  ⟨rfl, rfl, rfl⟩

/-- C1 counterexample: a local chain of length 2 and a single peer
whose response reports `length = 3` but carries a chain array of
length 1 (a singleton passes `validChain` trivially).  The reported
length beats `maxLength`, the candidate is adopted, and the local
chain shrinks from 2 blocks to 1. -/
theorem resolveConflicts_shortens_on_misreported_length :
    (BlockChain.resolveConflicts
        ⟨[genesisBlock 0, ⟨2, 0, [], 7, "x"⟩], [], []⟩
        [some ⟨3, [genesisBlock 0]⟩]).1.chain.length
      < (⟨[genesisBlock 0, ⟨2, 0, [], 7, "x"⟩], [], []⟩ : BCState).chain.length := by
  decide

theorem resolveLoop_honest_length
    (responses : List (Option ChainResponse)) (init : Int) :
    ∀ (maxLength : Int) (newChain : Option (List Block)),
      (∀ r ∈ responses, ∀ resp, r = some resp → resp.length = (resp.chain.length : Int)) →
      init ≤ maxLength →
      (∀ c, newChain = some c → init ≤ (c.length : Int)) →
      ∀ c, BlockChain.resolveLoop responses maxLength newChain = some c →
        init ≤ (c.length : Int) := by
  induction responses with
  | nil =>
      intro maxLength newChain _ _ hinv c hres
      exact hinv c hres
  | cons r rest ih =>
      intro maxLength newChain honest hge hinv c hres
      cases r with
      | none =>
          refine ih maxLength newChain (fun x hx => honest x (by simp [hx])) hge hinv c ?_
          simpa [BlockChain.resolveLoop] using hres
      | some resp =>
          simp only [BlockChain.resolveLoop] at hres
          split at hres
          · rename_i hcond
            have hlen : resp.length = (resp.chain.length : Int) :=
              honest (some resp) (by simp) resp rfl
            refine ih resp.length (some resp.chain)
              (fun x hx => honest x (by simp [hx]))
              (le_of_lt (lt_of_le_of_lt hge hcond.1)) ?_ c hres
            intro c' hc'
            obtain rfl : resp.chain = c' := by simpa using hc'
            rw [← hlen]
            exact le_of_lt (lt_of_le_of_lt hge hcond.1)
          · exact ih maxLength newChain (fun x hx => honest x (by simp [hx])) hge hinv c hres

/-- C1 amended: under the wire contract that every successful peer
response reports a `length` equal to the actual length of its chain
array, `resolveConflicts` never shortens the local chain. -/
theorem resolveConflicts_never_shortens (s : BCState)
    (responses : List (Option ChainResponse))
    (honest : honestResponses responses) :
    s.chain.length ≤ (BlockChain.resolveConflicts s responses).1.chain.length := by
  unfold BlockChain.resolveConflicts
  split
  · rename_i c hc
    have hle := resolveLoop_honest_length responses (s.chain.length : Int)
      (s.chain.length : Int) none honest le_rfl (by simp) c hc
    exact_mod_cast hle
  · exact le_rfl

theorem resolveConflicts_never_shortens_witness :
    (initState 0).chain.length
      ≤ (BlockChain.resolveConflicts (initState 0) [none]).1.chain.length :=
  resolveConflicts_never_shortens (initState 0) [none]
    (by intro r hr resp hresp; simp at hr; subst hr; cases hresp)

/-- C2 counterexample: from the freshly constructed state (a 1-block
chain with the genesis block), one peer response reporting `length = 5`
with an empty chain array defeats the invariant: `validChain []` is
`true`, the reported length beats the local length, the JS truthiness
test `if (newChain)` accepts the empty array, and the local chain
becomes empty — no genesis block, no first element of index 1. -/
theorem resolveConflicts_installs_empty_chain :
    (BlockChain.resolveConflicts (initState 0) [some ⟨5, []⟩]).1.chain = [] ∧
    (BlockChain.resolveConflicts (initState 0) [some ⟨5, []⟩]).2 = true :=
  ⟨rfl, rfl⟩

theorem genesisHead_append (ch l : List Block) (h : genesisHead ch = true) :
    genesisHead (ch ++ l) = true := by
  cases ch with
  | nil => simp [genesisHead] at h
  | cons b t => simpa [genesisHead] using h

/-- C2 amended: the constructor establishes a non-empty chain whose
first block has index 1, and the invariant is preserved by
`newTransaction`, by every normally returning `newBlock`, by
`registerNode` (which also leaves the chain untouched), and by every
`resolveConflicts` call that returns `false`; an adopting
`resolveConflicts` is not covered (see the counterexample).
`proofOfWork` reads and writes no state at all in this embedding. -/
theorem genesis_invariant_preserved (ts : Nat) (s : BCState) :
    genesisHead (initState ts).chain = true ∧
    (genesisHead s.chain = true → ∀ a b c,
        genesisHead (BlockChain.newTransaction s a b c).1.chain = true) ∧
    (genesisHead s.chain = true → ∀ proof ph t s2 blk,
        BlockChain.newBlock s proof ph t = some (s2, blk) →
          genesisHead s2.chain = true) ∧
    (∀ addr s2, BlockChain.registerNode s addr = Except.ok s2 →
        s2.chain = s.chain ∧
        (genesisHead s.chain = true → genesisHead s2.chain = true)) ∧
    (genesisHead s.chain = true → ∀ rs,
        (BlockChain.resolveConflicts s rs).2 = false →
          genesisHead (BlockChain.resolveConflicts s rs).1.chain = true) := by
  refine ⟨rfl, ?_, ?_, ?_, ?_⟩
  · intro h a b c
    exact h
  · intro h proof ph t s2 blk hnb
    simp only [BlockChain.newBlock] at hnb
    split at hnb
    · exact absurd hnb (by simp)
    · simp only [Option.some.injEq, Prod.mk.injEq] at hnb
      obtain ⟨hs2, _⟩ := hnb
      subst hs2
      exact genesisHead_append s.chain _ h
  · intro addr s2 hreg
    simp only [BlockChain.registerNode] at hreg
    split at hreg
    · exact absurd hreg (by simp)
    · simp only [Except.ok.injEq] at hreg
      subst hreg
      exact ⟨rfl, fun h => h⟩
  · intro h rs hfalse
    unfold BlockChain.resolveConflicts at hfalse ⊢
    split at hfalse
    · simp at hfalse
    · exact h

theorem genesis_invariant_preserved_witness :
    genesisHead (initState 0).chain = true ∧
    genesisHead (BlockChain.newTransaction (initState 0) "a" "b" 1).1.chain = true ∧
    genesisHead (⟨(initState 0).chain ++ [⟨2, 1, [], 7, "x"⟩], [], []⟩ : BCState).chain
        = true ∧
    genesisHead (BlockChain.resolveConflicts (initState 0) [none]).1.chain = true := by
  have h := genesis_invariant_preserved 0 (initState 0)
  refine ⟨h.1, h.2.1 rfl "a" "b" 1, ?_, h.2.2.2.2 rfl [none] rfl⟩
  exact h.2.2.1 rfl 7 (some "x") 1
    ⟨(initState 0).chain ++ [⟨2, 1, [], 7, "x"⟩], [], []⟩ ⟨2, 1, [], 7, "x"⟩ (by rfl)
